import Mathlib

/-!
# Verification of the equipment-monitoring data core

Shallow embedding of the data-reduction and forecasting engine of the
equipment dashboard (`src/components/dashboard.tsx`, `src/components/predict.tsx`):
the latest-reading reducer and alert extractor (`processData`), the chart pivot
(`prepareChartData`), the trend forecaster (`generateFutureTimestamps`,
`predictFutureValues`), and the risk scorer (`calculateMaintenanceProbability`).

Modelling conventions:
* JavaScript numbers are modelled as exact rationals (`ℚ`); the claims under
  test state exact formulas over small benign values.
* `new Date(s)` is modelled by an abstract parse function
  `parse : String → Option Int` giving the epoch time in seconds (`none` for an
  invalid date).  The source steps timestamps by `60 * 60 * 1000` milliseconds;
  in seconds that step is `3600`.  Concrete instances use the table parser `exParse` defined below.
* `new Date(a) > new Date(b)` is `dtGt (parse a) (parse b)`: any comparison
  involving an invalid date (`NaN` time value) is `false`.
* The `latest` accumulator object is modelled as a function
  `String → Option Reading`.
-/

set_option autoImplicit false

namespace EquipCore

/-- The `EquipmentData` record of `dashboard.tsx` / `PredictiveData` of
`predict.tsx` (identical field lists). Numeric fields are rationals,
string fields are strings; `timestamp` stays a string and is parsed on use. -/
structure Reading where
  equipment_id : String
  temperature : ℚ
  vibration_level : ℚ
  operating_hours : ℚ
  pressure : ℚ
  maintenance_required : String
  timestamp : String
  part_id : String
  part_name : String
  unit_name : String
  wear_cause : String
  part_health_percentage : ℚ
  days_until_replacement : ℚ
  last_maintenance_date : String
  deriving DecidableEq

/-- The guard `!row.equipment_id || !row.timestamp` of `processData`:
a row is kept only when both strings are non-empty (the JS falsy check on a
string field). -/
def validR (r : Reading) : Bool :=
  !(r.equipment_id == "") && !(r.timestamp == "")

/-- `new Date(a) > new Date(b)` on parsed time values: strictly greater, and
`false` whenever either side is an invalid date (`NaN` compares false). -/
def dtGt : Option Int → Option Int → Bool
  | some a, some b => decide (b < a)
  | _, _ => false

/-- State threaded through the single pass of `processData`: the running
best-per-id map `latest` and the accumulated `alerts` list. -/
structure PDState where
  latest : String → Option Reading
  alerts : List Reading

/-- One iteration of the `parsedData.forEach` body of `processData`:
skip invalid rows; install a row for its id when no incumbent exists or when
its parsed timestamp is strictly greater than the incumbent's; push
maintenance-flagged rows onto `alerts`. -/
def pdStep (parse : String → Option Int) (st : PDState) (r : Reading) : PDState :=
  if validR r then
    let latest' : String → Option Reading :=
      match st.latest r.equipment_id with
      | none => fun k => if k == r.equipment_id then some r else st.latest k
      | some c =>
        if dtGt (parse r.timestamp) (parse c.timestamp) then
          fun k => if k == r.equipment_id then some r else st.latest k
        else
          st.latest
    let alerts' : List Reading :=
      if r.maintenance_required == "Yes" then st.alerts ++ [r] else st.alerts
    ⟨latest', alerts'⟩
  else
    st

/-- `processData` of `dashboard.tsx`: a left fold of `pdStep` over the batch,
starting from the empty map and empty alert list. -/
def processData (parse : String → Option Int) (rows : List Reading) : PDState :=
  rows.foldl (pdStep parse) ⟨fun _ => none, []⟩

/-- A valid reading for the given equipment id (the rows the reducer actually
considers for that id). -/
def sameId (id : String) (r : Reading) : Bool :=
  validR r && r.equipment_id == id

/-- The alert predicate of `processData`: row kept by the validity guard and
flagged `maintenance_required === 'Yes'`. -/
def isAlert (r : Reading) : Bool :=
  validR r && r.maintenance_required == "Yes"

theorem pdStep_alerts (parse : String → Option Int) (st : PDState) (r : Reading) :
    (pdStep parse st r).alerts = st.alerts ++ (if isAlert r then [r] else []) := by
  unfold pdStep isAlert
  by_cases hv : validR r <;> by_cases hm : r.maintenance_required == "Yes" <;>
    simp [hv, hm]

theorem foldl_pdStep_alerts (parse : String → Option Int) (rows : List Reading)
    (st : PDState) :
    (rows.foldl (pdStep parse) st).alerts = st.alerts ++ rows.filter isAlert := by
  induction rows generalizing st with
  | nil => simp
  | cons r rest ih =>
    rw [List.foldl_cons, ih, pdStep_alerts]
    by_cases h : isAlert r <;> simp [h, List.filter_cons]

/-- The alerts list is exactly the in-order filter of the batch by the alert
predicate. -/
theorem processData_alerts (parse : String → Option Int) (rows : List Reading) :
    (processData parse rows).alerts = rows.filter isAlert := by
  unfold processData
  rw [foldl_pdStep_alerts]
  rfl

theorem dtGt_irrefl (x : Option Int) : dtGt x x = false := by
  cases x <;> simp [dtGt]

theorem dtGt_trans {x y z : Option Int} (hxy : dtGt x y = true) (hyz : dtGt y z = true) :
    dtGt x z = true := by
  cases x <;> cases y <;> cases z <;> simp_all [dtGt]
  omega

/-- The key of the `find?` characterisation below: first row for `id` carrying
the given parsed timestamp. -/
def tsMatch (parse : String → Option Int) (id : String) (t : Option Int)
    (x : Reading) : Bool :=
  sameId id x && decide (parse x.timestamp = t)

/-- Invariant of the reducer pass after consuming `processed`: per id, either
no valid row for that id has been seen, or the stored row is a seen valid row
for that id, no seen same-id row has a strictly greater parsed timestamp, and
the stored row is the first seen same-id row carrying its parsed timestamp. -/
def latestInv (parse : String → Option Int) (processed : List Reading)
    (st : PDState) : Prop :=
  ∀ id : String,
    (st.latest id = none → ∀ r' ∈ processed, sameId id r' = false) ∧
    (∀ r : Reading, st.latest id = some r →
      sameId id r = true ∧ r ∈ processed ∧
      (∀ r' ∈ processed, sameId id r' = true →
        dtGt (parse r'.timestamp) (parse r.timestamp) = false) ∧
      processed.find? (tsMatch parse id (parse r.timestamp)) = some r)

theorem latestInv_nil (parse : String → Option Int) :
    latestInv parse [] ⟨fun _ => none, []⟩ := by
  intro id
  constructor
  · intro _ r' hr'
    simp at hr'
  · intro r hr
    simp at hr

theorem pdStep_latestInv (parse : String → Option Int) (processed : List Reading)
    (st : PDState) (r : Reading) (h : latestInv parse processed st) :
    latestInv parse (processed ++ [r]) (pdStep parse st r) := by
  by_cases hv : validR r = true
  case neg =>
    have hstep : pdStep parse st r = st := by
      simp [pdStep, hv]
    rw [hstep]
    intro id
    obtain ⟨hn, hs⟩ := h id
    have hsame : sameId id r = false := by
      simp [sameId, Bool.eq_false_iff.mpr hv]
    constructor
    · intro h0 r' hr'
      rcases List.mem_append.mp hr' with h1 | h1
      · exact hn h0 r' h1
      · rw [List.mem_singleton.mp h1]
        exact hsame
    · intro rr hrr
      obtain ⟨a, b, c, d⟩ := hs rr hrr
      refine ⟨a, List.mem_append_left _ b, ?_, ?_⟩
      · intro r' hr' hsm
        rcases List.mem_append.mp hr' with h1 | h1
        · exact c r' h1 hsm
        · rw [List.mem_singleton.mp h1] at hsm
          rw [hsame] at hsm
          exact absurd hsm (by simp)
      · rw [List.find?_append, d]
        rfl
  case pos =>
    intro id
    obtain ⟨hn, hs⟩ := h id
    by_cases hid : id = r.equipment_id
    case neg =>
      -- the step only touches the key `r.equipment_id`
      have hkey : (pdStep parse st r).latest id = st.latest id := by
        have hbeq : (id == r.equipment_id) = false := by
          simp only [beq_eq_false_iff_ne, ne_eq]
          exact hid
        unfold pdStep
        simp only [hv, if_true]
        cases hlk : st.latest r.equipment_id with
        | none => simp [hbeq]
        | some c =>
          by_cases hgt : dtGt (parse r.timestamp) (parse c.timestamp) = true
          · simp [hgt, hbeq]
          · simp [Bool.eq_false_iff.mpr hgt]
      have hsame : sameId id r = false := by
        have hbeq : (r.equipment_id == id) = false := by
          simp only [beq_eq_false_iff_ne, ne_eq]
          exact fun hh => hid hh.symm
        simp [sameId, hbeq]
      rw [hkey]
      constructor
      · intro h0 r' hr'
        rcases List.mem_append.mp hr' with h1 | h1
        · exact hn h0 r' h1
        · rw [List.mem_singleton.mp h1]
          exact hsame
      · intro rr hrr
        obtain ⟨a, b, c, d⟩ := hs rr hrr
        refine ⟨a, List.mem_append_left _ b, ?_, ?_⟩
        · intro r' hr' hsm
          rcases List.mem_append.mp hr' with h1 | h1
          · exact c r' h1 hsm
          · rw [List.mem_singleton.mp h1] at hsm
            rw [hsame] at hsm
            exact absurd hsm (by simp)
        · rw [List.find?_append, d]
          rfl
    case pos =>
      subst hid
      have hsame : sameId r.equipment_id r = true := by
        simp [sameId, hv]
      cases hlk : st.latest r.equipment_id with
      | none =>
        have hkey : (pdStep parse st r).latest r.equipment_id = some r := by
          unfold pdStep
          simp [hv, hlk]
        have hnone : ∀ r' ∈ processed, sameId r.equipment_id r' = false :=
          hn hlk
        constructor
        · intro h0
          rw [hkey] at h0
          exact absurd h0 (by simp)
        · intro rr hrr
          rw [hkey] at hrr
          have hrr' : r = rr := Option.some_inj.mp hrr
          subst hrr'
          refine ⟨hsame, List.mem_append_right _ (List.mem_singleton.mpr rfl), ?_, ?_⟩
          · intro r' hr' hsm
            rcases List.mem_append.mp hr' with h1 | h1
            · rw [hnone r' h1] at hsm
              exact absurd hsm (by simp)
            · rw [List.mem_singleton.mp h1]
              exact dtGt_irrefl _
          · have hfp : processed.find? (tsMatch parse r.equipment_id (parse r.timestamp)) = none := by
              rw [List.find?_eq_none]
              intro x hx hpx
              simp only [tsMatch, Bool.and_eq_true] at hpx
              rw [hnone x hx] at hpx
              exact absurd hpx.1 (by simp)
            rw [List.find?_append, hfp, Option.none_or]
            have hm : tsMatch parse r.equipment_id (parse r.timestamp) r = true := by
              simp [tsMatch, hsame]
            simp [hm]
      | some c =>
        obtain ⟨ca, cb, cc, cd⟩ := hs c hlk
        by_cases hgt : dtGt (parse r.timestamp) (parse c.timestamp) = true
        case pos =>
          have hkey : (pdStep parse st r).latest r.equipment_id = some r := by
            unfold pdStep
            simp [hv, hlk, hgt]
          constructor
          · intro h0
            rw [hkey] at h0
            exact absurd h0 (by simp)
          · intro rr hrr
            rw [hkey] at hrr
            have hrr' : r = rr := Option.some_inj.mp hrr
            subst hrr'
            refine ⟨hsame, List.mem_append_right _ (List.mem_singleton.mpr rfl), ?_, ?_⟩
            · intro r' hr' hsm
              rcases List.mem_append.mp hr' with h1 | h1
              · by_contra hcon
                have hgt' : dtGt (parse r'.timestamp) (parse r.timestamp) = true := by
                  revert hcon
                  cases dtGt (parse r'.timestamp) (parse r.timestamp) <;> simp
                have hcc := dtGt_trans hgt' hgt
                rw [cc r' h1 hsm] at hcc
                exact absurd hcc (by simp)
              · rw [List.mem_singleton.mp h1]
                exact dtGt_irrefl _
            · have hfp : processed.find? (tsMatch parse r.equipment_id (parse r.timestamp)) = none := by
                rw [List.find?_eq_none]
                intro x hx hpx
                simp only [tsMatch, Bool.and_eq_true, decide_eq_true_eq] at hpx
                obtain ⟨hsm, hts⟩ := hpx
                have hcc : dtGt (parse x.timestamp) (parse c.timestamp) = true := by
                  rw [hts]
                  exact hgt
                rw [cc x hx hsm] at hcc
                exact absurd hcc (by simp)
              rw [List.find?_append, hfp, Option.none_or]
              have hm : tsMatch parse r.equipment_id (parse r.timestamp) r = true := by
                simp [tsMatch, hsame]
              simp [hm]
        case neg =>
          have hkey : (pdStep parse st r).latest r.equipment_id = some c := by
            unfold pdStep
            simp [hv, hlk, hgt]
          constructor
          · intro h0
            rw [hkey] at h0
            exact absurd h0 (by simp)
          · intro rr hrr
            rw [hkey] at hrr
            have hrr' : c = rr := Option.some_inj.mp hrr
            subst hrr'
            refine ⟨ca, List.mem_append_left _ cb, ?_, ?_⟩
            · intro r' hr' hsm
              rcases List.mem_append.mp hr' with h1 | h1
              · exact cc r' h1 hsm
              · rw [List.mem_singleton.mp h1]
                exact Bool.eq_false_iff.mpr hgt
            · rw [List.find?_append, cd]
              rfl

theorem foldl_pdStep_latestInv (parse : String → Option Int) (rows : List Reading) :
    ∀ (processed : List Reading) (st : PDState), latestInv parse processed st →
      latestInv parse (processed ++ rows) (rows.foldl (pdStep parse) st) := by
  induction rows with
  | nil =>
    intro processed st h
    simpa using h
  | cons r rest ih =>
    intro processed st h
    rw [List.foldl_cons]
    have h1 := pdStep_latestInv parse processed st r h
    have h2 := ih (processed ++ [r]) (pdStep parse st r) h1
    rwa [List.append_assoc, List.singleton_append] at h2

/-- The reducer invariant holds of the final state over the full batch. -/
theorem processData_latestInv (parse : String → Option Int) (rows : List Reading) :
    latestInv parse rows (processData parse rows) := by
  have := foldl_pdStep_latestInv parse rows [] ⟨fun _ => none, []⟩ (latestInv_nil parse)
  rwa [List.nil_append] at this

theorem pdStep_invalid (parse : String → Option Int) (st : PDState) (r : Reading)
    (hv : validR r = false) : pdStep parse st r = st := by
  simp [pdStep, hv]

theorem foldl_pdStep_filter (parse : String → Option Int) (rows : List Reading) :
    ∀ st : PDState,
      rows.foldl (pdStep parse) st = (rows.filter validR).foldl (pdStep parse) st := by
  induction rows with
  | nil => intro st; rfl
  | cons r rest ih =>
    intro st
    by_cases hv : validR r = true
    · rw [List.foldl_cons, List.filter_cons_of_pos hv, List.foldl_cons, ih]
    · rw [List.foldl_cons, List.filter_cons_of_neg (by simp [hv]),
        pdStep_invalid parse st r (Bool.eq_false_iff.mpr hv), ih]

/- ## Chart data shaper (`prepareChartData` of `dashboard.tsx`) -/

/-- A column key of a chart row: `` `temp_${id}` `` or `` `vib_${id}` ``.
The string prefixes make the JS keys injective in the id, so a structured key
is an equivalent encoding. -/
inductive ChartKey where
  | temp (id : String)
  | vib (id : String)
  deriving DecidableEq

/-- One chart row: the group's `timestamp` plus the dynamically assigned
columns of the JS point object, as an insertion-ordered association list. -/
structure ChartPoint where
  timestamp : String
  entries : List (ChartKey × ℚ)
  deriving DecidableEq

/-- JS property assignment `point[k] = v`: overwrite in place if the key
exists, else append the key at the end. -/
def setEntry : List (ChartKey × ℚ) → ChartKey → ℚ → List (ChartKey × ℚ)
  | [], k, v => [(k, v)]
  | (k', v') :: rest, k, v =>
    if k' = k then (k, v) :: rest else (k', v') :: setEntry rest k v

/-- JS property lookup `point[k]` (`none` = the key is absent / undefined). -/
def lookupEntry (es : List (ChartKey × ℚ)) (k : ChartKey) : Option ℚ :=
  (es.find? (fun p => p.1 = k)).map (·.2)

/-- Insert one reading into the running group list of `_.groupBy(data,
'timestamp')`: append to the group of its timestamp if one exists, else open a
new group at the end (first-occurrence key order). -/
def gbInsert (acc : List (String × List Reading)) (r : Reading) :
    List (String × List Reading) :=
  match acc with
  | [] => [(r.timestamp, [r])]
  | (k, g) :: rest =>
    if k = r.timestamp then (k, g ++ [r]) :: rest else (k, g) :: gbInsert rest r

/-- `_.groupBy(data, 'timestamp')` followed by `Object.entries`: groups keyed
by the exact timestamp string, in insertion order of each key's first
occurrence (the model assumes non-index string keys such as date strings, for
which JS preserves insertion order). -/
def groupByTimestamp (data : List Reading) : List (String × List Reading) :=
  data.foldl gbInsert []

/-- The `readings.forEach` body of `prepareChartData`: assign
`temp_${id}` then `vib_${id}` on the point object. -/
def chartAssign (es : List (ChartKey × ℚ)) (r : Reading) : List (ChartKey × ℚ) :=
  setEntry (setEntry es (ChartKey.temp r.equipment_id) r.temperature)
    (ChartKey.vib r.equipment_id) r.vibration_level

/-- `prepareChartData` of `dashboard.tsx`: group by timestamp, then build one
point per group carrying the group's timestamp and, per reading of the group,
its temperature and vibration columns. -/
def prepareChartData (data : List Reading) : List ChartPoint :=
  (groupByTimestamp data).map (fun p =>
    { timestamp := p.1, entries := p.2.foldl chartAssign [] })

/-- Distinct elements in order of first occurrence (used to specify the key
order of the chart pivot). -/
def dedupFirst (seen : List String) : List String → List String
  | [] => []
  | x :: xs =>
    if x ∈ seen then dedupFirst seen xs else x :: dedupFirst (x :: seen) xs

theorem mem_dedupFirst {x : String} : ∀ (seen l : List String),
    x ∈ dedupFirst seen l → x ∈ l ∧ x ∉ seen := by
  intro seen l
  induction l generalizing seen with
  | nil => intro h; simp [dedupFirst] at h
  | cons y ys ih =>
    intro h
    unfold dedupFirst at h
    by_cases hy : y ∈ seen
    · rw [if_pos hy] at h
      obtain ⟨h1, h2⟩ := ih seen h
      exact ⟨List.mem_cons_of_mem _ h1, h2⟩
    · rw [if_neg hy] at h
      rcases List.mem_cons.mp h with h1 | h1
      · subst h1
        exact ⟨List.mem_cons_self _ _, hy⟩
      · obtain ⟨h1', h2'⟩ := ih (y :: seen) h1
        exact ⟨List.mem_cons_of_mem _ h1', fun hc => h2' (List.mem_cons_of_mem _ hc)⟩

theorem dedupFirst_cons (seen : List String) (x : String) (xs : List String) :
    dedupFirst seen (x :: xs) =
      if x ∈ seen then dedupFirst seen xs else x :: dedupFirst (x :: seen) xs := rfl

theorem mem_dedupFirst_of {x : String} : ∀ (seen l : List String),
    x ∈ l → x ∉ seen → x ∈ dedupFirst seen l := by
  intro seen l
  induction l generalizing seen with
  | nil => intro h; simp at h
  | cons y ys ih =>
    intro hl hs
    rw [dedupFirst_cons]
    by_cases hy : y ∈ seen
    · rw [if_pos hy]
      rcases List.mem_cons.mp hl with h1 | h1
      · exact absurd (h1 ▸ hy) hs
      · exact ih seen h1 hs
    · rw [if_neg hy]
      by_cases hxy : x = y
      · subst hxy; exact List.mem_cons_self _ _
      · rcases List.mem_cons.mp hl with h1 | h1
        · exact absurd h1 hxy
        · refine List.mem_cons_of_mem _ (ih (y :: seen) h1 ?_)
          intro hc
          rcases List.mem_cons.mp hc with h2 | h2
          · exact hxy h2
          · exact hs h2

theorem mem_dedupFirst_iff {x : String} (seen l : List String) :
    x ∈ dedupFirst seen l ↔ x ∈ l ∧ x ∉ seen :=
  ⟨mem_dedupFirst seen l, fun h => mem_dedupFirst_of seen l h.1 h.2⟩

theorem nodup_dedupFirst : ∀ (seen l : List String), (dedupFirst seen l).Nodup := by
  intro seen l
  induction l generalizing seen with
  | nil => simp [dedupFirst]
  | cons y ys ih =>
    unfold dedupFirst
    by_cases hy : y ∈ seen
    · rw [if_pos hy]; exact ih seen
    · rw [if_neg hy]
      refine List.nodup_cons.mpr ⟨?_, ih (y :: seen)⟩
      intro hc
      exact (mem_dedupFirst _ _ hc).2 (List.mem_cons_self _ _)

theorem dedupFirst_congr : ∀ (s₁ s₂ l : List String),
    (∀ x, x ∈ s₁ ↔ x ∈ s₂) → dedupFirst s₁ l = dedupFirst s₂ l := by
  intro s₁ s₂ l h
  induction l generalizing s₁ s₂ with
  | nil => rfl
  | cons y ys ih =>
    unfold dedupFirst
    by_cases hy : y ∈ s₁
    · rw [if_pos hy, if_pos ((h y).mp hy)]
      exact ih s₁ s₂ h
    · rw [if_neg hy, if_neg (fun hc => hy ((h y).mpr hc))]
      refine congrArg _ (ih (y :: s₁) (y :: s₂) ?_)
      intro x
      simp [h x]

theorem gbInsert_keys (acc : List (String × List Reading)) (r : Reading) :
    (gbInsert acc r).map Prod.fst =
      if r.timestamp ∈ acc.map Prod.fst then acc.map Prod.fst
      else acc.map Prod.fst ++ [r.timestamp] := by
  induction acc with
  | nil => simp [gbInsert]
  | cons p rest ih =>
    obtain ⟨k, g⟩ := p
    unfold gbInsert
    by_cases hk : k = r.timestamp
    · subst hk
      simp
    · rw [if_neg hk]
      simp only [List.map_cons]
      rw [ih]
      have hne : ¬ (r.timestamp = k) := fun h => hk h.symm
      by_cases hmem : r.timestamp ∈ List.map Prod.fst rest
      · rw [if_pos hmem, if_pos (by simp [List.mem_cons, hmem])]
      · rw [if_neg hmem, if_neg (by simp [List.mem_cons, hne, hmem]),
          List.cons_append]

theorem foldl_gbInsert_keys (data : List Reading) :
    ∀ acc : List (String × List Reading),
      (data.foldl gbInsert acc).map Prod.fst =
        acc.map Prod.fst ++
          dedupFirst (acc.map Prod.fst) (data.map (·.timestamp)) := by
  induction data with
  | nil => intro acc; simp [dedupFirst]
  | cons r rest ih =>
    intro acc
    rw [List.foldl_cons, ih (gbInsert acc r), gbInsert_keys]
    rw [List.map_cons, dedupFirst_cons]
    by_cases hmem : r.timestamp ∈ acc.map Prod.fst
    · rw [if_pos hmem, if_pos hmem]
    · rw [if_neg hmem, if_neg hmem, List.append_assoc, List.singleton_append]
      refine congrArg _ (congrArg _ ?_)
      refine dedupFirst_congr _ _ _ ?_
      intro x
      simp [or_comm]

/-- The chart rows' timestamps are the input's distinct timestamp strings in
first-occurrence order. -/
theorem prepareChartData_timestamps (data : List Reading) :
    (prepareChartData data).map ChartPoint.timestamp =
      dedupFirst [] (data.map (·.timestamp)) := by
  unfold prepareChartData groupByTimestamp
  rw [List.map_map]
  have h : (ChartPoint.timestamp ∘ fun p : String × List Reading =>
      ChartPoint.mk p.1 (p.2.foldl chartAssign [])) = Prod.fst := by
    funext p
    rfl
  rw [h, foldl_gbInsert_keys]
  simp

/-- The group stored for a key (the first group whose key matches). -/
def findGroup (acc : List (String × List Reading)) (k : String) :
    Option (List Reading) :=
  (acc.find? (fun p => p.1 == k)).map Prod.snd

theorem gbInsert_find_self (acc : List (String × List Reading)) (r : Reading) :
    findGroup (gbInsert acc r) r.timestamp =
      some ((findGroup acc r.timestamp).getD [] ++ [r]) := by
  induction acc with
  | nil => simp [gbInsert, findGroup]
  | cons p rest ih =>
    obtain ⟨k, g⟩ := p
    unfold gbInsert
    by_cases hk : k = r.timestamp
    · subst hk
      simp [findGroup]
    · rw [if_neg hk]
      have hbeq : (k == r.timestamp) = false := by
        simp only [beq_eq_false_iff_ne, ne_eq]
        exact hk
      simp only [findGroup, List.find?_cons, hbeq] at ih ⊢
      exact ih

theorem gbInsert_find_ne (acc : List (String × List Reading)) (r : Reading)
    (k : String) (hk : k ≠ r.timestamp) :
    findGroup (gbInsert acc r) k = findGroup acc k := by
  induction acc with
  | nil =>
    have hbeq : (r.timestamp == k) = false := by
      simp only [beq_eq_false_iff_ne, ne_eq]
      exact fun h => hk h.symm
    simp [gbInsert, findGroup, hbeq]
  | cons p rest ih =>
    obtain ⟨k', g⟩ := p
    unfold gbInsert
    by_cases hk' : k' = r.timestamp
    · subst hk'
      rw [if_pos rfl]
      have hbeq : (r.timestamp == k) = false := by
        simp only [beq_eq_false_iff_ne, ne_eq]
        exact fun h => hk h.symm
      simp [findGroup, List.find?_cons, hbeq]
    · rw [if_neg hk']
      cases hbeq : (k' == k) with
      | true => simp [findGroup, List.find?_cons, hbeq]
      | false => simp only [findGroup, List.find?_cons, hbeq] at ih ⊢; exact ih

theorem foldl_gbInsert_groups (data : List Reading) :
    ∀ (acc : List (String × List Reading)) (processed : List Reading),
      (∀ k, (findGroup acc k).getD [] =
        processed.filter (fun r => r.timestamp == k)) →
      ∀ k, (findGroup (data.foldl gbInsert acc) k).getD [] =
        (processed ++ data).filter (fun r => r.timestamp == k) := by
  induction data with
  | nil =>
    intro acc processed h k
    simpa using h k
  | cons r rest ih =>
    intro acc processed h k
    rw [List.foldl_cons]
    have hstep : ∀ k', (findGroup (gbInsert acc r) k').getD [] =
        (processed ++ [r]).filter (fun x => x.timestamp == k') := by
      intro k'
      by_cases hk : k' = r.timestamp
      · subst hk
        rw [gbInsert_find_self, Option.getD_some, h r.timestamp]
        rw [List.filter_append]
        simp
      · rw [gbInsert_find_ne acc r k' hk, h k', List.filter_append]
        have : (r.timestamp == k') = false := by
          simp only [beq_eq_false_iff_ne, ne_eq]
          exact fun hh => hk hh.symm
        simp [this]
    have := ih (gbInsert acc r) (processed ++ [r]) hstep k
    rwa [List.append_assoc, List.singleton_append] at this

theorem findGroup_groupByTimestamp (data : List Reading) (k : String) :
    (findGroup (groupByTimestamp data) k).getD [] =
      data.filter (fun r => r.timestamp == k) := by
  have h0 : ∀ k', (findGroup ([] : List (String × List Reading)) k').getD [] =
      ([] : List Reading).filter (fun r => r.timestamp == k') := by
    intro k'
    simp [findGroup]
  have := foldl_gbInsert_groups data [] [] h0 k
  rwa [List.nil_append] at this

theorem find?_of_mem_nodupKeys {p : String × List Reading}
    {acc : List (String × List Reading)} (hnd : (acc.map Prod.fst).Nodup)
    (hm : p ∈ acc) : acc.find? (fun q => q.1 == p.1) = some p := by
  induction acc with
  | nil => simp at hm
  | cons q rest ih =>
    rcases List.mem_cons.mp hm with h1 | h1
    · subst h1
      simp [List.find?_cons]
    · rw [List.map_cons] at hnd
      have hnd' := List.nodup_cons.mp hnd
      have hne : (q.1 == p.1) = false := by
        simp only [beq_eq_false_iff_ne, ne_eq]
        intro hh
        apply hnd'.1
        rw [hh]
        exact List.mem_map_of_mem Prod.fst h1
      rw [List.find?_cons, hne]
      exact ih hnd'.2 h1

theorem nodup_groupByTimestamp_keys (data : List Reading) :
    ((groupByTimestamp data).map Prod.fst).Nodup := by
  have h := foldl_gbInsert_keys data []
  unfold groupByTimestamp
  rw [h]
  simpa using nodup_dedupFirst [] (data.map (·.timestamp))

/-- Every group of the timestamp pivot is exactly the in-order sublist of the
input carrying that exact timestamp string. -/
theorem mem_groupByTimestamp (data : List Reading) {k : String} {g : List Reading}
    (hm : (k, g) ∈ groupByTimestamp data) :
    g = data.filter (fun r => r.timestamp == k) := by
  have hf := find?_of_mem_nodupKeys (nodup_groupByTimestamp_keys data) hm
  have hg : findGroup (groupByTimestamp data) k = some g := by
    unfold findGroup
    rw [hf]
    rfl
  have := findGroup_groupByTimestamp data k
  rw [hg, Option.getD_some] at this
  exact this

theorem lookupEntry_setEntry (es : List (ChartKey × ℚ)) (k : ChartKey) (v : ℚ)
    (k' : ChartKey) :
    lookupEntry (setEntry es k v) k' =
      if k' = k then some v else lookupEntry es k' := by
  induction es with
  | nil =>
    by_cases h : k' = k
    · subst h
      simp [setEntry, lookupEntry]
    · have hne : ¬ k = k' := fun hh => h hh.symm
      simp [setEntry, lookupEntry, h, hne]
  | cons p rest ih =>
    obtain ⟨k₀, v₀⟩ := p
    by_cases h0 : k₀ = k
    · have hset : setEntry ((k₀, v₀) :: rest) k v = (k, v) :: rest := by
        simp [setEntry, h0]
      rw [hset]
      by_cases h : k' = k
      · subst h
        simp [lookupEntry, List.find?_cons]
      · have hne : ¬ k = k' := fun hh => h hh.symm
        have hne0 : ¬ k₀ = k' := fun hh => h (hh.symm.trans h0)
        simp [lookupEntry, List.find?_cons, h, hne, hne0]
    · have hset : setEntry ((k₀, v₀) :: rest) k v =
          (k₀, v₀) :: setEntry rest k v := by
        simp [setEntry, h0]
      rw [hset]
      by_cases h : k' = k₀
      · have hkk : ¬ k' = k := fun hh => h0 (h.symm.trans hh)
        have hd : k₀ = k' := h.symm
        simp [lookupEntry, List.find?_cons, hd, hkk]
      · have hne0 : ¬ k₀ = k' := fun hh => h hh.symm
        simp only [lookupEntry, List.find?_cons, decide_eq_false hne0] at ih ⊢
        exact ih

theorem lookupEntry_foldl_temp (g : List Reading) :
    ∀ (es : List (ChartKey × ℚ)) (id : String),
      (lookupEntry (g.foldl chartAssign es) (ChartKey.temp id)).isSome =
        ((lookupEntry es (ChartKey.temp id)).isSome ||
          g.any (fun r => r.equipment_id == id)) := by
  induction g with
  | nil => intro es id; simp
  | cons r rest ih =>
    intro es id
    rw [List.foldl_cons, ih]
    have hca : lookupEntry (chartAssign es r) (ChartKey.temp id) =
        if id = r.equipment_id then some r.temperature
        else lookupEntry es (ChartKey.temp id) := by
      unfold chartAssign
      rw [lookupEntry_setEntry, if_neg (by simp), lookupEntry_setEntry]
      by_cases hid : id = r.equipment_id
      · rw [if_pos hid, if_pos (by rw [hid])]
      · rw [if_neg hid, if_neg (by simp [hid])]
    rw [hca]
    by_cases hid : id = r.equipment_id
    · have hbeq : (r.equipment_id == id) = true := by simp [hid]
      simp [hid, hbeq]
    · have hbeq : (r.equipment_id == id) = false := by
        simp only [beq_eq_false_iff_ne, ne_eq]
        exact fun hh => hid hh.symm
      simp [hid, hbeq]

theorem lookupEntry_foldl_vib (g : List Reading) :
    ∀ (es : List (ChartKey × ℚ)) (id : String),
      (lookupEntry (g.foldl chartAssign es) (ChartKey.vib id)).isSome =
        ((lookupEntry es (ChartKey.vib id)).isSome ||
          g.any (fun r => r.equipment_id == id)) := by
  induction g with
  | nil => intro es id; simp
  | cons r rest ih =>
    intro es id
    rw [List.foldl_cons, ih]
    have hca : lookupEntry (chartAssign es r) (ChartKey.vib id) =
        if id = r.equipment_id then some r.vibration_level
        else lookupEntry es (ChartKey.vib id) := by
      unfold chartAssign
      rw [lookupEntry_setEntry]
      by_cases hid : id = r.equipment_id
      · rw [if_pos (by rw [hid]), if_pos hid]
      · rw [if_neg (by simp [hid]), lookupEntry_setEntry, if_neg (by simp),
          if_neg hid]
    rw [hca]
    by_cases hid : id = r.equipment_id
    · have hbeq : (r.equipment_id == id) = true := by simp [hid]
      simp [hid, hbeq]
    · have hbeq : (r.equipment_id == id) = false := by
        simp only [beq_eq_false_iff_ne, ne_eq]
        exact fun hh => hid hh.symm
      simp [hid, hbeq]

/-- Per chart row: a temperature / vibration column for an equipment id is
present exactly when some input reading has that exact timestamp string and
that id. -/
theorem prepareChartData_columns (data : List Reading) (p : ChartPoint)
    (hp : p ∈ prepareChartData data) (id : String) :
    ((lookupEntry p.entries (ChartKey.temp id)).isSome = true ↔
      ∃ r ∈ data, r.timestamp = p.timestamp ∧ r.equipment_id = id) ∧
    ((lookupEntry p.entries (ChartKey.vib id)).isSome = true ↔
      ∃ r ∈ data, r.timestamp = p.timestamp ∧ r.equipment_id = id) := by
  unfold prepareChartData at hp
  obtain ⟨q, hq, hpq⟩ := List.mem_map.mp hp
  obtain ⟨k, g⟩ := q
  have hg : g = data.filter (fun r => r.timestamp == k) := mem_groupByTimestamp data hq
  have hts : p.timestamp = k := by rw [← hpq]
  have hes : p.entries = g.foldl chartAssign [] := by rw [← hpq]
  have hmain : (g.any (fun r => r.equipment_id == id) = true ↔
      ∃ r ∈ data, r.timestamp = p.timestamp ∧ r.equipment_id = id) := by
    rw [hg, hts, List.any_eq_true]
    constructor
    · rintro ⟨r, hr, hrid⟩
      obtain ⟨hrd, hrts⟩ := List.mem_filter.mp hr
      exact ⟨r, hrd, by simpa using hrts, by simpa using hrid⟩
    · rintro ⟨r, hrd, hrts, hrid⟩
      exact ⟨r, List.mem_filter.mpr ⟨hrd, by simp [hrts]⟩, by simp [hrid]⟩
  constructor
  · rw [hes, lookupEntry_foldl_temp]
    simpa [lookupEntry] using hmain
  · rw [hes, lookupEntry_foldl_vib]
    simpa [lookupEntry] using hmain

/- ## Trend forecaster and risk scorer (`predict.tsx`) -/

/-- One forecast point of `predictFutureValues` (timestamp as parsed epoch
seconds; the source formats it back to a `"YYYY-MM-DD hh:mm:ss"` string). -/
structure ForecastPoint where
  timestamp : Int
  predictedTemp : ℚ
  predictedVib : ℚ
  upperBoundTemp : ℚ
  lowerBoundTemp : ℚ
  equipment_id : String
  deriving DecidableEq

/-- The loop of `generateFutureTimestamps`: repeatedly advance the current
time by one hour (the source adds `60 * 60 * 1000` milliseconds; in the
seconds model that is `3600`) and emit the advanced time. -/
def genGo (current : Int) : Nat → List Int
  | 0 => []
  | n + 1 => (current + 3600) :: genGo (current + 3600) n

/-- `generateFutureTimestamps` of `predict.tsx` on the parsed time value. -/
def generateFutureTimestamps (lastTimestamp : Int) (hours : Nat) : List Int :=
  genGo lastTimestamp hours

/-- The per-id series `data.filter((d) => d.equipment_id === equipment_id)`
shared by `predictFutureValues` and `calculateMaintenanceProbability`. -/
def seriesOf (data : List Reading) (id : String) : List Reading :=
  data.filter (fun d => d.equipment_id == id)

/-- The endpoint-difference slope `(vals[vals.length - 1] - vals[0]) /
vals.length` of `predictFutureValues` (`getD 0` is irrelevant: the series is
non-empty whenever the trend is used). -/
def trendOf (vals : List ℚ) : ℚ :=
  (vals.getLast?.getD 0 - vals.head?.getD 0) / (vals.length : ℚ)

/-- `predictFutureValues` of `predict.tsx`.  `none` models the exceptions the
source throws: indexing `equipmentData[length - 1]` of an empty array
(`TypeError` on `.timestamp`), and `toISOString()` on an invalid date. -/
def predictFutureValues (parse : String → Option Int) (data : List Reading)
    (equipment_id : String) : Option (List ForecastPoint) :=
  let temps := (seriesOf data equipment_id).map Reading.temperature
  let vibs := (seriesOf data equipment_id).map Reading.vibration_level
  match (seriesOf data equipment_id).getLast? with
  | none => none
  | some lastReading =>
    match parse lastReading.timestamp with
    | none => none
    | some t0 =>
      some (((generateFutureTimestamps t0 6).enum).map (fun q =>
        { timestamp := q.2
          predictedTemp := temps.getLast?.getD 0 + trendOf temps * ((q.1 : ℚ) + 1)
          predictedVib := vibs.getLast?.getD 0 + trendOf vibs * ((q.1 : ℚ) + 1)
          upperBoundTemp := temps.getLast?.getD 0 + trendOf temps * ((q.1 : ℚ) + 1) + 2
          lowerBoundTemp := temps.getLast?.getD 0 + trendOf temps * ((q.1 : ℚ) + 1) - 2
          equipment_id := equipment_id }))

/-- `healthFactor` of `calculateMaintenanceProbability`. -/
def healthFactor (health : ℚ) : ℚ := (100 - health) / 100

/-- `timeFactor` of `calculateMaintenanceProbability`: clamped below at 0,
unclamped above. -/
def timeFactor (daysUntilReplacement : ℚ) : ℚ :=
  max 0 ((365 - daysUntilReplacement) / 365)

/-- `calculateMaintenanceProbability` of `predict.tsx`: 0 when the id has no
readings, else `Math.round` of the weighted factors of the last row (in input
order) for that id. -/
def calculateMaintenanceProbability (data : List Reading)
    (equipment_id : String) : Int :=
  match (seriesOf data equipment_id).getLast? with
  | none => 0
  | some latestData =>
    round ((healthFactor latestData.part_health_percentage * (0.6 : ℚ) +
      timeFactor latestData.days_until_replacement * (0.4 : ℚ)) * 100)

theorem genGo_length : ∀ (n : Nat) (t : Int), (genGo t n).length = n := by
  intro n
  induction n with
  | zero => intro t; rfl
  | succ m ih =>
    intro t
    unfold genGo
    rw [List.length_cons, ih]

theorem genGo_get? : ∀ (n : Nat) (t : Int) (i : Nat), i < n →
    (genGo t n).get? i = some (t + 3600 * ((i : Int) + 1)) := by
  intro n
  induction n with
  | zero => intro t i h; omega
  | succ m ih =>
    intro t i h
    cases i with
    | zero =>
      unfold genGo
      simp
    | succ j =>
      unfold genGo
      rw [List.get?_cons_succ, ih (t + 3600) j (by omega)]
      congr 1
      push_cast
      ring

/- ## Concrete example data used by the witnesses and counterexamples -/

/-- Concrete timestamp parser for the examples: a small table of parseable
date strings and their epoch-second values (every other string is an invalid
date).  The general theorems hold for every parse function; this one only
instantiates them. -/
def exParse : String → Option Int := fun s =>
  if s = "1" then some 1
  else if s = "2" then some 2
  else if s = "5" then some 5
  else if s = "7" then some 7
  else if s = "9" then some 9
  else if s = "10" then some 10
  else if s = "100" then some 100
  else none

/-- Build a `Reading` from the fields the claims exercise; the remaining
descriptive fields are fixed neutral values. -/
def mkR (id ts maint : String) (temp vib health days : ℚ) : Reading :=
  { equipment_id := id, temperature := temp, vibration_level := vib,
    operating_hours := 0, pressure := 0, maintenance_required := maint,
    timestamp := ts, part_id := "P", part_name := "P", unit_name := "U",
    wear_cause := "W", part_health_percentage := health,
    days_until_replacement := days, last_maintenance_date := "D" }

def exC1a : Reading := mkR "EQ3" "100" "No" 1 0 50 10
def exC1b : Reading := mkR "EQ3" "100" "No" 2 0 50 10

def exC2r : Reading := mkR "" "7" "Yes" 9 1 50 10

def exC3a : Reading := mkR "A" "5" "No" 1 0 50 10
def exC3b : Reading := mkR "A" "9" "No" 2 0 50 10
def exC3c : Reading := mkR "A" "7" "No" 3 0 50 10

def exC4a : Reading := mkR "EQ2" "10" "No" 0 0 40 30
def exC4b : Reading := mkR "EQ2" "5" "No" 0 0 100 365

def exC5a : Reading := mkR "EQ1" "1" "No" 70 0 50 10
def exC5b : Reading := mkR "EQ1" "2" "No" 80 0 50 10
def exC5 : List Reading := [exC5a, exC5b]

def ex5fps : List ForecastPoint :=
  (predictFutureValues exParse exC5 "EQ1").getD []

def exFp0 : ForecastPoint := (ex5fps.get? 0).getD ⟨0, 0, 0, 0, 0, ""⟩

def exFp5 : ForecastPoint := (ex5fps.get? 5).getD ⟨0, 0, 0, 0, 0, ""⟩

def exC7 : List Reading := [mkR "EQ1" "1" "No" 70 0 50 10]

def exC8 : List Reading := [mkR "EQ8" "1" "No" 0 0 0 (-365)]

def exC10a : Reading := mkR "A" "1" "No" 20 2 50 10
def exC10b : Reading := mkR "B" "2" "No" 21 3 50 10
def exC10c : Reading := mkR "B" "1" "No" 22 4 50 10
def exC10 : List Reading := [exC10a, exC10b, exC10c]

/- ## Claim theorems -/

/-- C1 (counterexample): two readings for `"EQ3"` share the identical maximum
timestamp; the reducer keeps the EARLIER row in input order (the rows differ,
and the stored one is the first), refuting last-write-wins on equal
timestamps. -/
theorem thmC1_counterexample :
    (processData exParse [exC1a, exC1b]).latest "EQ3" = some exC1a ∧
    exC1a ≠ exC1b := by
  constructor
  · decide
  · decide

/-- C1 (amended): for every batch and id, the stored reading is the FIRST
valid same-id row in input order carrying its parsed timestamp — on a shared
maximum timestamp the earlier-occurring row wins, because the reducer replaces
only on strictly greater parsed timestamps. -/
theorem thmC1 (parse : String → Option Int) (rows : List Reading) (id : String)
    (r : Reading) (h : (processData parse rows).latest id = some r) :
    rows.find? (tsMatch parse id (parse r.timestamp)) = some r :=
  (((processData_latestInv parse rows) id).2 r h).2.2.2

/-- C1 witness: the amended theorem applied to the equal-timestamp example. -/
theorem thmC1_witness :
    List.find? (tsMatch exParse "EQ3" (exParse exC1a.timestamp))
      [exC1a, exC1b] = some exC1a :=
  thmC1 exParse [exC1a, exC1b] "EQ3" exC1a (by decide)

/-- C2 (counterexample): a reading with empty (falsy) `equipment_id` is NOT
excluded from the chart pivot — it produces a chart row whose
`temp_` column for the empty id carries its temperature. -/
theorem thmC2_counterexample :
    lookupEntry ((prepareChartData [exC2r]).head?.getD ⟨"", []⟩).entries
      (ChartKey.temp "") = some 9 := by
  decide

/-- C2 (amended): a reading with empty `equipment_id` or empty `timestamp` is
excluded from the LatestReadings mapping and the MaintenanceAlerts list and
does not abort processing of the remaining rows (`processData` of any batch
equals `processData` of its valid sublist); the chart pivot, however, receives
the unfiltered batch and does not exclude such readings. -/
theorem thmC2 (parse : String → Option Int) (rows : List Reading) :
    processData parse rows = processData parse (rows.filter validR) := by
  unfold processData
  exact foldl_pdStep_filter parse rows _

/-- C3: the stored reading per id is maximal: no valid same-id reading in the
batch has a strictly greater parsed timestamp (under the source's
`new Date(a) > new Date(b)` comparison, where invalid dates compare false). -/
theorem thmC3 (parse : String → Option Int) (rows : List Reading) (id : String)
    (r : Reading) (h : (processData parse rows).latest id = some r)
    (r' : Reading) (hr' : r' ∈ rows) (hv : validR r' = true)
    (hid : r'.equipment_id = id) :
    dtGt (parse r'.timestamp) (parse r.timestamp) = false := by
  have hinv := ((processData_latestInv parse rows) id).2 r h
  exact hinv.2.2.1 r' hr' (by simp [sameId, hv, hid])

/-- C3 witness: in a batch where the middle row has the greatest parsed
timestamp, the reducer stores it, and the later smaller-timestamp row does not
compare greater. -/
theorem thmC3_witness :
    dtGt (exParse exC3c.timestamp) (exParse exC3b.timestamp) = false :=
  thmC3 exParse [exC3a, exC3b, exC3c] "A" exC3b (by decide) exC3c
    (by decide) (by decide) rfl

/-- C9: the alerts list is exactly the order-preserving filter of the batch by
"valid and `maintenance_required == 'Yes'`", and never longer than the
batch. -/
theorem thmC9 (parse : String → Option Int) (rows : List Reading) :
    (processData parse rows).alerts =
      rows.filter (fun r => validR r && r.maintenance_required == "Yes") ∧
    (processData parse rows).alerts.length ≤ rows.length := by
  have h := processData_alerts parse rows
  constructor
  · exact h
  · rw [h]
    exact List.length_filter_le _ _

/-- C4 (counterexample): the risk scorer does NOT use the maximum-parsed-
timestamp reading.  In a batch where the strictly later-timestamped reading
for `"EQ2"` (health 40, days 30) comes first, the claim's formula over that
reading gives 73, but the scorer uses the last row in input order (health 100,
days 365) and returns 0. -/
theorem thmC4_counterexample :
    dtGt (exParse exC4a.timestamp) (exParse exC4b.timestamp) = true ∧
    round ((healthFactor exC4a.part_health_percentage * (0.6 : ℚ) +
      timeFactor exC4a.days_until_replacement * (0.4 : ℚ)) * 100) = 73 ∧
    calculateMaintenanceProbability [exC4a, exC4b] "EQ2" = 0 := by
  refine ⟨by decide, ?_, ?_⟩
  · simp only [exC4a, mkR, healthFactor, timeFactor]
    rw [max_eq_right (by norm_num), round_eq]
    norm_num
  · have hlast : (seriesOf [exC4a, exC4b] "EQ2").getLast? = some exC4b := by
      decide
    simp only [calculateMaintenanceProbability, hlast]
    simp only [exC4b, mkR, healthFactor, timeFactor]
    rw [max_eq_right (by norm_num), round_eq]
    norm_num

/-- C4 (amended): the risk score equals
`round((health_factor * 0.6 + time_factor * 0.4) * 100)` with the factors of
the claim, but the health percentage and days-until-replacement are taken
from the LAST reading in input order among the rows with that equipment id
(not from the maximum-parsed-timestamp reading). -/
theorem thmC4 (rows : List Reading) (id : String) (r : Reading)
    (h : (seriesOf rows id).getLast? = some r) :
    calculateMaintenanceProbability rows id =
      round ((healthFactor r.part_health_percentage * (0.6 : ℚ) +
        timeFactor r.days_until_replacement * (0.4 : ℚ)) * 100) := by
  simp only [calculateMaintenanceProbability, h]

/-- C4 witness: the amended theorem applied to the out-of-order batch. -/
theorem thmC4_witness :
    calculateMaintenanceProbability [exC4a, exC4b] "EQ2" =
      round ((healthFactor exC4b.part_health_percentage * (0.6 : ℚ) +
        timeFactor exC4b.days_until_replacement * (0.4 : ℚ)) * 100) :=
  thmC4 [exC4a, exC4b] "EQ2" exC4b (by decide)

/-- C7 (counterexample): for an equipment id with zero readings the forecaster
does not yield an empty forecast list — it fails (modelled `none`, the
`TypeError` of indexing an empty array); only the risk scorer has the
defined default 0. -/
theorem thmC7_counterexample :
    predictFutureValues exParse exC7 "EQX" = none ∧
    predictFutureValues exParse exC7 "EQX" ≠ some [] ∧
    calculateMaintenanceProbability exC7 "EQX" = 0 := by
  refine ⟨by decide, by decide, by decide⟩

/-- C7 (amended): for an equipment id with zero readings in the batch, the
risk computation yields the defined default score 0, while the forecast
computation has no defined default and fails (modelled as `none`). -/
theorem thmC7 (parse : String → Option Int) (rows : List Reading) (id : String)
    (h : seriesOf rows id = []) :
    predictFutureValues parse rows id = none ∧
    calculateMaintenanceProbability rows id = 0 := by
  constructor
  · simp only [predictFutureValues, h]
    rfl
  · simp only [calculateMaintenanceProbability, h]
    rfl

/-- C7 witness: the amended theorem applied to a batch without the id. -/
theorem thmC7_witness :
    predictFutureValues exParse exC7 "EQNONE" = none ∧
    calculateMaintenanceProbability exC7 "EQNONE" = 0 :=
  thmC7 exParse exC7 "EQNONE" (by decide)

/-- C8: the time factor is clamped only below: any days-until-replacement
greater than 365 gives factor 0, while at `-365` days (overdue) the factor is
2 > 1 and the final score of such a reading is 140 > 100 — no upper clamp on
the factor or the score. -/
theorem thmC8 :
    (∀ d : ℚ, 365 < d → timeFactor d = 0) ∧
    1 < timeFactor (-365) ∧
    100 < calculateMaintenanceProbability exC8 "EQ8" := by
  refine ⟨?_, ?_, ?_⟩
  · intro d hd
    unfold timeFactor
    have h1 : (365 - d) / 365 ≤ 0 :=
      div_nonpos_of_nonpos_of_nonneg (by linarith) (by norm_num)
    exact max_eq_left h1
  · unfold timeFactor
    rw [max_eq_right (by norm_num)]
    norm_num
  · have hlast : (seriesOf exC8 "EQ8").getLast? =
        some (mkR "EQ8" "1" "No" 0 0 0 (-365)) := by decide
    simp only [calculateMaintenanceProbability, hlast]
    simp only [mkR, healthFactor, timeFactor]
    rw [max_eq_right (by norm_num), round_eq]
    norm_num

/-- C8 witness: the lower clamp at a concrete over-365 input. -/
theorem thmC8_witness : timeFactor 400 = 0 :=
  thmC8.1 400 (by norm_num)

/-- C5: every forecast point for an id follows the endpoint-difference trend
`(last - first) / count` per metric: step `i+1` (0-based index `i`) predicts
`last_value + trend * (i+1)` for temperature and vibration, and the
temperature bounds are the prediction ± 2. -/
theorem thmC5 (parse : String → Option Int) (rows : List Reading) (id : String)
    (fps : List ForecastPoint) (h : predictFutureValues parse rows id = some fps)
    (i : Nat) (fp : ForecastPoint) (hfp : fps.get? i = some fp) :
    fp.predictedTemp =
      ((seriesOf rows id).map Reading.temperature).getLast?.getD 0 +
        trendOf ((seriesOf rows id).map Reading.temperature) * ((i : ℚ) + 1) ∧
    fp.predictedVib =
      ((seriesOf rows id).map Reading.vibration_level).getLast?.getD 0 +
        trendOf ((seriesOf rows id).map Reading.vibration_level) * ((i : ℚ) + 1) ∧
    fp.upperBoundTemp = fp.predictedTemp + 2 ∧
    fp.lowerBoundTemp = fp.predictedTemp - 2 := by
  cases hL : (seriesOf rows id).getLast? with
  | none =>
    simp only [predictFutureValues, hL] at h
    exact Option.noConfusion h
  | some lastR =>
    cases hP : parse lastR.timestamp with
    | none =>
      simp only [predictFutureValues, hL, hP] at h
      exact Option.noConfusion h
    | some t0 =>
      simp only [predictFutureValues, hL, hP, Option.some_inj] at h
      rw [← h] at hfp
      rw [List.get?_map, List.get?_enum] at hfp
      cases hg : (generateFutureTimestamps t0 6).get? i with
      | none => rw [hg] at hfp; simp at hfp
      | some ts =>
        rw [hg] at hfp
        simp only [Option.map_some'] at hfp
        have hfp' := (Option.some_inj.mp hfp).symm
        subst hfp'
        exact ⟨rfl, rfl, rfl, rfl⟩

/-- C5 witness: the spec's worked example — temperatures `[70, 80]` give trend
5; forecast step 1 predicts 85 with bounds 87 and 83, and step 6 predicts
110. -/
theorem thmC5_witness :
    trendOf ((seriesOf exC5 "EQ1").map Reading.temperature) = 5 ∧
    exFp0.predictedTemp = 85 ∧ exFp0.upperBoundTemp = 87 ∧
    exFp0.lowerBoundTemp = 83 ∧ exFp5.predictedTemp = 110 := by
  have hseries : seriesOf exC5 "EQ1" = [exC5a, exC5b] := by decide
  have htr : trendOf ((seriesOf exC5 "EQ1").map Reading.temperature) = 5 := by
    rw [hseries]
    norm_num [trendOf, exC5a, exC5b, mkR]
  have hlast80 : ((seriesOf exC5 "EQ1").map Reading.temperature).getLast?.getD 0 = 80 := by
    decide
  have h0 := thmC5 exParse exC5 "EQ1" ex5fps rfl 0 exFp0 rfl
  have h5 := thmC5 exParse exC5 "EQ1" ex5fps rfl 5 exFp5 rfl
  refine ⟨htr, ?_, ?_, ?_, ?_⟩
  · rw [h0.1, htr, hlast80]
    push_cast
    norm_num
  · rw [h0.2.2.1, h0.1, htr, hlast80]
    push_cast
    norm_num
  · rw [h0.2.2.2, h0.1, htr, hlast80]
    push_cast
    norm_num
  · rw [h5.1, htr, hlast80]
    push_cast
    norm_num

/-- C6: for every id with at least one reading (and a parseable last
timestamp), the forecaster yields exactly 6 points; the first is one hour
(3600 s) after the last input reading's timestamp and each next point is
exactly one hour after the previous. -/
theorem generateFutureTimestamps_length (n : Nat) (t : Int) :
    (generateFutureTimestamps t n).length = n :=
  genGo_length n t

theorem generateFutureTimestamps_get? (n : Nat) (t : Int) (i : Nat) (h : i < n) :
    (generateFutureTimestamps t n).get? i = some (t + 3600 * ((i : Int) + 1)) :=
  genGo_get? n t i h

theorem thmC6 (parse : String → Option Int) (rows : List Reading) (id : String)
    (fps : List ForecastPoint) (h : predictFutureValues parse rows id = some fps)
    (lastR : Reading) (hlast : (seriesOf rows id).getLast? = some lastR)
    (t0 : Int) (ht0 : parse lastR.timestamp = some t0) :
    fps.length = 6 ∧
    (fps.get? 0).map ForecastPoint.timestamp = some (t0 + 3600) ∧
    (∀ (i : Nat) (fp fp' : ForecastPoint), fps.get? i = some fp →
      fps.get? (i + 1) = some fp' → fp'.timestamp = fp.timestamp + 3600) := by
  simp only [predictFutureValues, hlast, ht0, Option.some_inj] at h
  subst h
  refine ⟨?_, ?_, ?_⟩
  · rw [List.length_map, List.enum_length, generateFutureTimestamps_length]
  · rw [List.get?_map, List.get?_enum,
      generateFutureTimestamps_get? 6 t0 0 (by omega)]
    simp
  · intro i fp fp' h1 h2
    obtain ⟨hb, _⟩ := List.get?_eq_some.mp h2
    rw [List.length_map, List.enum_length, generateFutureTimestamps_length] at hb
    rw [List.get?_map, List.get?_enum,
      generateFutureTimestamps_get? 6 t0 i (by omega)] at h1
    rw [List.get?_map, List.get?_enum,
      generateFutureTimestamps_get? 6 t0 (i + 1) hb] at h2
    simp only [Option.map_some', Option.some_inj] at h1 h2
    rw [← h1, ← h2]
    show t0 + 3600 * ((i : Int) + 1 + 1) = t0 + 3600 * ((i : Int) + 1) + 3600
    ring

/-- C6 witness: the two-reading series for `"EQ1"` whose last timestamp parses
to 2 yields 6 points, the first at 2 + 3600 = 3602. -/
theorem thmC6_witness :
    ex5fps.length = 6 ∧
    (ex5fps.get? 0).map ForecastPoint.timestamp = some 3602 := by
  have h := thmC6 exParse exC5 "EQ1" ex5fps rfl exC5b (by decide) 2 (by decide)
  refine ⟨h.1, ?_⟩
  rw [h.2.1]
  norm_num

/-- C10: the chart shaper emits one row per distinct exact timestamp string,
in insertion order of each timestamp's first occurrence (no bucketing, no
chronological sort), and each row carries a temperature and a vibration column
exactly for the equipment ids present at that timestamp (absent ids have no
column). -/
theorem thmC10 (data : List Reading) :
    (prepareChartData data).map ChartPoint.timestamp =
      dedupFirst [] (data.map (·.timestamp)) ∧
    ((prepareChartData data).map ChartPoint.timestamp).Nodup ∧
    (∀ t, t ∈ (prepareChartData data).map ChartPoint.timestamp ↔
      t ∈ data.map (·.timestamp)) ∧
    (∀ p ∈ prepareChartData data, ∀ id,
      ((lookupEntry p.entries (ChartKey.temp id)).isSome = true ↔
        ∃ r ∈ data, r.timestamp = p.timestamp ∧ r.equipment_id = id) ∧
      ((lookupEntry p.entries (ChartKey.vib id)).isSome = true ↔
        ∃ r ∈ data, r.timestamp = p.timestamp ∧ r.equipment_id = id)) := by
  refine ⟨prepareChartData_timestamps data, ?_, ?_, ?_⟩
  · rw [prepareChartData_timestamps data]
    exact nodup_dedupFirst [] _
  · intro t
    rw [prepareChartData_timestamps data, mem_dedupFirst_iff]
    simp
  · intro p hp id
    exact prepareChartData_columns data p hp id

def exP1 : ChartPoint := (prepareChartData exC10).head?.getD ⟨"", []⟩

/-- C10 witness: on a batch with timestamps `"1", "2", "1"`, the rows are for
`"1"` then `"2"`, and the first row has a column for equipment `"B"` because
`"B"` has a reading at timestamp `"1"`. -/
theorem thmC10_witness :
    (prepareChartData exC10).map ChartPoint.timestamp = ["1", "2"] ∧
    (∃ r ∈ exC10, r.timestamp = exP1.timestamp ∧ r.equipment_id = "B") := by
  have h := thmC10 exC10
  have hp : exP1 ∈ prepareChartData exC10 := by decide
  exact ⟨by decide, ((h.2.2.2 exP1 hp "B").1).mp (by decide)⟩

end EquipCore
